import Mathlib

/-!
Shallow embedding of the living-diary memory subsystem.

The embedding covers the vector memory store (`src/memory/index.ts`), the
people/relationship graph (`PeopleGraphHolder` in the people module), and the
extraction-pipeline validation (`parseExtraction` and the people-update
mutation steps in `src/ai/extract.ts`).  External primitives — the embedding
service, the cosine-distance computation of the vector index, `JSON.parse`,
`Date.now()` and uuid generation — are passed in as explicit parameters, so
every definition stays executable.
-/

namespace LivingDiary

/-! ### Small helpers -/

/-- Minimum of a list of rationals (`none` on the empty list).  Models the
`_distance` of the first row of a `limit(1)` nearest-neighbour vector search:
the nearest matching row has the minimal distance. -/
def listMin : List ℚ → Option ℚ
  | [] => none
  | x :: xs => some (xs.foldl min x)

theorem foldl_min_le_init (xs : List ℚ) : ∀ x : ℚ, xs.foldl min x ≤ x := by
  induction xs with
  | nil => intro x; simp
  | cons b t ih =>
    intro x
    calc t.foldl min (min x b) ≤ min x b := ih (min x b)
      _ ≤ x := min_le_left _ _

theorem foldl_min_le_mem (xs : List ℚ) :
    ∀ x a, a ∈ xs → xs.foldl min x ≤ a := by
  induction xs with
  | nil => intro x a h; cases h
  | cons b t ih =>
    intro x a h
    rcases List.mem_cons.mp h with rfl | h
    · calc t.foldl min (min x a) ≤ min x a := foldl_min_le_init t (min x a)
        _ ≤ a := min_le_right _ _
    · exact ih (min x b) a h

/-- If `a` is a member, `listMin` is some value `≤ a`. -/
theorem listMin_le_of_mem {l : List ℚ} {a : ℚ} (h : a ∈ l) :
    ∃ m, listMin l = some m ∧ m ≤ a := by
  cases l with
  | nil => cases h
  | cons x xs =>
    refine ⟨xs.foldl min x, rfl, ?_⟩
    rcases List.mem_cons.mp h with rfl | h
    · exact foldl_min_le_init xs a
    · exact foldl_min_le_mem xs x a h

/-! ### Vector memory store (`MemoryStore` in `src/memory/index.ts`) -/

/-- Model of `MemoryType` from `src/shared/types.ts`. -/
inductive MemoryType where
  | diary_entry
  | user_fact
  | conversation_summary
  | reflection
  | photo_memory
  deriving DecidableEq, Repr

/-- One row of the `memories` vector table (the arrow schema plus the stored
embedding).  `V` is the vector type produced by the embedding service. -/
structure MemRow (V : Type) where
  id : String
  userId : Int
  content : String
  type : MemoryType
  tags : String
  timestamp : Int
  photoFileId : Option String
  source : Option String
  subjectName : Option String
  vector : V
  deriving DecidableEq, Repr

/-- The `options` argument of `MemoryStore.addMemory`. -/
structure AddOptions where
  photoFileId : Option String := none
  source : Option String := none
  subjectName : Option String := none
  deriving DecidableEq, Repr

/-- Thresholds `DEDUP_THRESHOLD_FACT = 0.10` and `DEDUP_THRESHOLD_ENTRY = 0.05`:
`type === "user_fact" ? DEDUP_THRESHOLD_FACT : DEDUP_THRESHOLD_ENTRY`. -/
def dedupThreshold (t : MemoryType) : ℚ :=
  if t = MemoryType.user_fact then 1/10 else 1/20

/-- The `where` clause of the dedup probe: always `type = '<type>'`, and
additionally `userId = <userId>` when the kind is `user_fact`. -/
def probeMatch {V : Type} (t : MemoryType) (userId : Int) (r : MemRow V) : Bool :=
  decide (r.type = t) && (decide (t ≠ MemoryType.user_fact) || decide (r.userId = userId))

/-- The dedup check of `addMemory`: performed only when `countRows() > 0`;
takes the nearest matching row by cosine distance and compares its distance
with the kind-specific threshold. -/
def dedupHit {V : Type} (dist : V → V → ℚ) (vec : V) (t : MemoryType)
    (userId : Int) (store : List (MemRow V)) : Bool :=
  if store.length > 0 then
    match listMin ((store.filter (probeMatch t userId)).map (fun r => dist vec r.vector)) with
    | some d => decide (d < dedupThreshold t)
    | none => false
  else false

/-- Model of `MemoryStore.addMemory(content, type, userId, tags, options)`.
`embed` is the embedding service, `dist` the cosine distance of the vector
index, `newId` the generated uuid and `now` the `Date.now()` timestamp.
Returns the new id (or `null` on a dedup hit) together with the new store. -/
def addMemory {V : Type} (embed : String → V) (dist : V → V → ℚ)
    (store : List (MemRow V)) (content : String) (t : MemoryType) (userId : Int)
    (tags : List String) (options : AddOptions) (newId : String) (now : Int) :
    Option String × List (MemRow V) :=
  let vec := embed content
  if dedupHit dist vec t userId store then
    (none, store)
  else
    (some newId,
      store ++ [{ id := newId, userId := userId, content := content, type := t,
                  tags := String.intercalate "," tags, timestamp := now,
                  photoFileId := options.photoFileId, source := options.source,
                  subjectName := options.subjectName, vector := vec }])

theorem dedupThreshold_pos (t : MemoryType) : 0 < dedupThreshold t := by
  cases t <;> simp [dedupThreshold]

/-- C1: Dedup monotonicity of insert.  If `addMemory` succeeds and returns an
id, a second `addMemory` with the same content, kind and ownerId returns
`null` and leaves the store unchanged (the hypothesis `h0` is the
determinism of the embedding: the candidate's vector has distance `0`
to itself). -/
theorem addMemory_dedup_second_null {V : Type} (embed : String → V)
    (dist : V → V → ℚ) (store : List (MemRow V)) (content : String)
    (t : MemoryType) (userId : Int) (tags tags2 : List String)
    (opts opts2 : AddOptions) (id1 id2 : String) (n1 n2 : Int)
    (i : String) (store' : List (MemRow V))
    (h0 : dist (embed content) (embed content) = 0)
    (h1 : addMemory embed dist store content t userId tags opts id1 n1
            = (some i, store')) :
    addMemory embed dist store' content t userId tags2 opts2 id2 n2
        = (none, store')
      ∧ store'.length = store.length + 1 := by
  simp only [addMemory] at h1
  by_cases hd : dedupHit dist (embed content) t userId store
  · rw [if_pos hd] at h1
    simp at h1
  · rw [if_neg hd] at h1
    have hstore : store' = store ++ [_] := (Prod.mk.injEq .. ▸ h1).2.symm
    subst hstore
    set row : MemRow V :=
      { id := id1, userId := userId, content := content, type := t,
        tags := String.intercalate "," tags, timestamp := n1,
        photoFileId := opts.photoFileId, source := opts.source,
        subjectName := opts.subjectName, vector := embed content } with hrow
    have hmemrow : row ∈ (store ++ [row]).filter (probeMatch t userId) := by
      refine List.mem_filter.mpr ⟨by simp, ?_⟩
      simp [probeMatch, hrow]
    have hdist0 : dist (embed content) row.vector = 0 := h0
    have hmem0 : (0 : ℚ) ∈ ((store ++ [row]).filter (probeMatch t userId)).map
        (fun r => dist (embed content) r.vector) :=
      List.mem_map.mpr ⟨row, hmemrow, hdist0⟩
    obtain ⟨m, hmin, hle⟩ := listMin_le_of_mem hmem0
    have hmlt : m < dedupThreshold t :=
      lt_of_le_of_lt hle (dedupThreshold_pos t)
    have hhit : dedupHit dist (embed content) t userId (store ++ [row]) = true := by
      simp only [dedupHit]
      rw [if_pos (by simp)]
      rw [hmin]
      simpa using hmlt
    constructor
    · simp only [addMemory]
      rw [if_pos hhit]
    · simp

/-- C2: Threshold asymmetry and probe scoping.  The thresholds are `0.10`
for `user_fact` and `0.05` for every other kind; the probe restricts to the
same kind, and to the same owner only for `user_fact`; a candidate whose
nearest scoped neighbour is at distance `d` with `0.05 ≤ d < 0.10` is
rejected as a `user_fact` but inserted as a `diary_entry`. -/
theorem addMemory_threshold_asymmetry {V : Type} (embed : String → V)
    (dist : V → V → ℚ) (store : List (MemRow V)) (content : String)
    (userId : Int) (tags : List String) (opts : AddOptions)
    (newId : String) (now : Int) :
    dedupThreshold MemoryType.user_fact = 1/10
  ∧ (∀ t, t ≠ MemoryType.user_fact → dedupThreshold t = 1/20)
  ∧ (∀ (r : MemRow V) (uid' : Int),
      (probeMatch MemoryType.user_fact uid' r = true ↔
        r.type = MemoryType.user_fact ∧ r.userId = uid')
      ∧ (∀ t, t ≠ MemoryType.user_fact →
          (probeMatch t uid' r = true ↔ r.type = t)))
  ∧ (∀ d : ℚ,
      listMin ((store.filter (probeMatch MemoryType.user_fact userId)).map
          (fun r => dist (embed content) r.vector)) = some d →
      1/20 ≤ d → d < 1/10 →
      addMemory embed dist store content MemoryType.user_fact userId tags opts
          newId now = (none, store))
  ∧ (∀ d : ℚ,
      listMin ((store.filter (probeMatch MemoryType.diary_entry userId)).map
          (fun r => dist (embed content) r.vector)) = some d →
      1/20 ≤ d →
      (addMemory embed dist store content MemoryType.diary_entry userId tags
          opts newId now).1 = some newId) := by
  refine ⟨rfl, ?_, ?_, ?_, ?_⟩
  · intro t ht; simp [dedupThreshold, ht]
  · intro r uid'
    constructor
    · simp [probeMatch]
    · intro t ht
      simp [probeMatch, ht]
  · intro d hmin h1 h2
    have hne : store ≠ [] := by
      intro h; subst h; simp [listMin] at hmin
    have hlen : store.length > 0 := List.length_pos.mpr hne
    have hhit : dedupHit dist (embed content) MemoryType.user_fact userId store
        = true := by
      simp only [dedupHit]
      rw [if_pos hlen, hmin]
      simpa [dedupThreshold] using h2
    simp only [addMemory]
    rw [if_pos hhit]
  · intro d hmin h1
    have hmiss : dedupHit dist (embed content) MemoryType.diary_entry userId store
        = false := by
      simp only [dedupHit]
      by_cases hlen : store.length > 0
      · rw [if_pos hlen, hmin]
        simp only [decide_eq_false_iff_not, not_lt]
        calc dedupThreshold MemoryType.diary_entry = 1/20 := by
              simp [dedupThreshold]
          _ ≤ d := h1
      · rw [if_neg hlen]
    simp only [addMemory]
    rw [if_neg (by simp [hmiss])]

/-- A concrete memory row used by the C1 witness: the row inserted by the
first `addMemory` on an empty store. -/
def rowC1 : MemRow Nat :=
  { id := "i1", userId := 7, content := "x", type := MemoryType.user_fact,
    tags := "", timestamp := 5, photoFileId := none, source := none,
    subjectName := none, vector := 0 }

/-- Witness for C1 at a concrete input: a first insert on the empty store
succeeds, and the second insert of the same content/kind/owner is rejected
with the store unchanged. -/
theorem addMemory_dedup_second_null_witness :
    addMemory (fun _ => (0 : Nat)) (fun a b => if a = b then (0 : ℚ) else 1)
        [rowC1] "x" MemoryType.user_fact 7 ["t2"] {} "i2" 6 = (none, [rowC1])
    ∧ ([rowC1] : List (MemRow Nat)).length = ([] : List (MemRow Nat)).length + 1 :=
  addMemory_dedup_second_null (fun _ => (0 : Nat))
    (fun a b => if a = b then (0 : ℚ) else 1) [] "x" MemoryType.user_fact 7
    [] ["t2"] {} {} "i1" "i2" 5 6 "i1" [rowC1] (by simp) rfl

/-- Concrete two-row store for the C2 witness: one `user_fact` of owner 7 and
one `diary_entry`. -/
def storeC2 : List (MemRow Nat) :=
  [{ id := "f1", userId := 7, content := "a", type := MemoryType.user_fact,
     tags := "", timestamp := 1, photoFileId := none, source := none,
     subjectName := none, vector := 0 },
   { id := "d1", userId := 7, content := "b", type := MemoryType.diary_entry,
     tags := "", timestamp := 2, photoFileId := none, source := none,
     subjectName := none, vector := 0 }]

/-- Witness for C2 at a concrete input: with every neighbour at cosine
distance `0.07`, a `user_fact` candidate is rejected while a `diary_entry`
candidate is inserted. -/
theorem addMemory_threshold_asymmetry_witness :
    addMemory (fun _ => (0 : Nat)) (fun _ _ => (7 : ℚ)/100) storeC2 "x"
        MemoryType.user_fact 7 [] {} "n1" 5 = (none, storeC2)
    ∧ (addMemory (fun _ => (0 : Nat)) (fun _ _ => (7 : ℚ)/100) storeC2 "x"
        MemoryType.diary_entry 7 [] {} "n1" 5).1 = some "n1" := by
  have h := addMemory_threshold_asymmetry (fun _ => (0 : Nat))
    (fun _ _ => (7 : ℚ)/100) storeC2 "x" 7 [] {} "n1" 5
  exact ⟨h.2.2.2.1 (7/100) rfl (by norm_num) (by norm_num),
         h.2.2.2.2 (7/100) rfl (by norm_num)⟩

/-! ### People graph (`PeopleGraphHolder` in the people module) -/

/-- Model of `RelationshipType` from `src/shared/types.ts`. -/
inductive RelationshipType where
  | sibling
  | parent
  | child
  | partner
  | friend
  | coworker
  | pet
  | other
  deriving DecidableEq, Repr

/-- Model of `Person` from `src/shared/types.ts`. -/
structure Person where
  id : String
  name : String
  aliases : List String
  telegramUserId : Option Int
  bio : String
  createdAt : Int
  updatedAt : Int
  deriving DecidableEq, Repr

/-- Model of `Relationship` from `src/shared/types.ts`. -/
structure Relationship where
  id : String
  personId1 : String
  personId2 : String
  type : RelationshipType
  label : String
  createdAt : Int
  deriving DecidableEq, Repr

/-- Model of `PeopleGraph` from `src/shared/types.ts`. -/
structure PeopleGraph where
  people : List Person
  relationships : List Relationship
  deriving DecidableEq, Repr

/-- Remove the first element satisfying `p` (models `Array.splice(idx, 1)`
after `findIndex`). -/
def removeFirst {α : Type} (p : α → Bool) : List α → List α
  | [] => []
  | a :: as => if p a then as else a :: removeFirst p as

/-- Replace the first element satisfying `p` by `q` (models in-place mutation
of the object returned by `Array.find`). -/
def replaceFirst {α : Type} (p : α → Bool) (q : α) : List α → List α
  | [] => []
  | a :: as => if p a then q :: as else a :: replaceFirst p q as

/-- Model of `String.prototype.toLowerCase()` restricted to its ASCII behaviour,
defined structurally on the character list so that it evaluates inside the
kernel. -/
def jsToLower (s : String) : String := ⟨s.data.map Char.toLower⟩

/-- Insertion-ordered deduplication by exact string equality: the semantics
of `new Set([...])` spread back into an array. -/
def insertionDedupAux (seen : List String) : List String → List String
  | [] => []
  | a :: rest =>
      if a ∈ seen then insertionDedupAux seen rest
      else a :: insertionDedupAux (a :: seen) rest

/-- Semantics of the spread `[...new Set(l)]`. -/
def insertionDedup (l : List String) : List String := insertionDedupAux [] l

/-- The name/alias match of `findPersonByName`: case-insensitive equality with
the primary name or any alias. -/
def matchesName (p : Person) (name : String) : Bool :=
  decide (jsToLower p.name = jsToLower name)
    || p.aliases.any (fun a => decide (jsToLower a = jsToLower name))

/-- Model of `PeopleGraphHolder.findPersonByName`. -/
def findPersonByName (g : PeopleGraph) (name : String) : Option Person :=
  g.people.find? (fun p => matchesName p name)

/-- Model of `PeopleGraphHolder.findOrCreatePerson` (`newId` is the generated uuid,
`now` the `Date.now()` timestamp). -/
def findOrCreatePerson (g : PeopleGraph) (name : String) (newId : String)
    (now : Int) : Person × PeopleGraph :=
  match findPersonByName g name with
  | some p => (p, g)
  | none =>
      let person : Person :=
        { id := newId, name := name, aliases := [], telegramUserId := none,
          bio := "", createdAt := now, updatedAt := now }
      (person, { g with people := g.people ++ [person] })

/-- The `updates` argument of `PeopleGraphHolder.updatePerson`
(`Partial<Pick<Person, "name" | "aliases" | "bio" | "telegramUserId">>`).
An outer `none` means the field is absent from the partial. -/
structure PersonUpdates where
  name : Option String := none
  aliases : Option (List String) := none
  bio : Option String := none
  telegramUserId : Option (Option Int) := none
  deriving DecidableEq, Repr

/-- Model of `PeopleGraphHolder.updatePerson`. -/
def updatePerson (g : PeopleGraph) (id : String) (updates : PersonUpdates)
    (now : Int) : Option Person × PeopleGraph :=
  match g.people.find? (fun p => decide (p.id = id)) with
  | none => (none, g)
  | some person =>
      let p1 := match updates.name with
        | some n => { person with name := n }
        | none => person
      let p2 := match updates.aliases with
        | some as => { p1 with aliases := as }
        | none => p1
      let p3 := match updates.bio with
        | some b => { p2 with bio := b }
        | none => p2
      let p4 := match updates.telegramUserId with
        | some t => { p3 with telegramUserId := t }
        | none => p3
      let p5 := { p4 with updatedAt := now }
      (some p5, { g with people := replaceFirst (fun p => decide (p.id = id)) p5 g.people })

/-- Model of `PeopleGraphHolder.deletePerson`: removes the person (first index match)
and filters out every relationship touching it. -/
def deletePerson (g : PeopleGraph) (id : String) : Bool × PeopleGraph :=
  match g.people.find? (fun p => decide (p.id = id)) with
  | none => (false, g)
  | some _ =>
      (true,
        { people := removeFirst (fun p => decide (p.id = id)) g.people,
          relationships := g.relationships.filter
            (fun r => decide (r.personId1 ≠ id) && decide (r.personId2 ≠ id)) })

/-- Model of `PeopleGraphHolder.addRelationship`. -/
def addRelationship (g : PeopleGraph) (personId1 personId2 : String)
    (t : RelationshipType) (label : String) (newId : String) (now : Int) :
    Option Relationship × PeopleGraph :=
  if (g.people.find? (fun p => decide (p.id = personId1))).isNone then (none, g)
  else if (g.people.find? (fun p => decide (p.id = personId2))).isNone then (none, g)
  else if g.relationships.any (fun r =>
      decide (r.type = t)
        && ((decide (r.personId1 = personId1) && decide (r.personId2 = personId2))
          || (decide (r.personId1 = personId2) && decide (r.personId2 = personId1)))) then
    (none, g)
  else
    let rel : Relationship :=
      { id := newId, personId1 := personId1, personId2 := personId2,
        type := t, label := label, createdAt := now }
    (some rel, { g with relationships := g.relationships ++ [rel] })

/-- Model of `PeopleGraphHolder.deleteRelationship`. -/
def deleteRelationship (g : PeopleGraph) (id : String) : Bool × PeopleGraph :=
  match g.relationships.find? (fun r => decide (r.id = id)) with
  | none => (false, g)
  | some _ =>
      (true, { g with relationships :=
                removeFirst (fun r => decide (r.id = id)) g.relationships })

/-- JavaScript truthiness of `telegramUserId : number | null`. -/
def jsTruthyTel : Option Int → Bool
  | none => false
  | some n => decide (n ≠ 0)

/-- The field mutations `mergePeople` applies to the kept person: aliases
are deduplicated by a case-sensitive `Set` with the kept primary name
deleted; the bios are concatenated when both are non-empty; the telegram id
is adopted only when the kept person lacks a truthy one. -/
def mergedKeep (keep merge : Person) (now : Int) : Person :=
  { keep with
      aliases :=
        (insertionDedup (keep.aliases ++ [merge.name] ++ merge.aliases)).filter
          (fun a => decide (a ≠ keep.name)),
      bio :=
        if decide (merge.bio ≠ "") && decide (keep.bio = "") then merge.bio
        else if decide (merge.bio ≠ "") && decide (keep.bio ≠ "") then
          keep.bio ++ " " ++ merge.bio
        else keep.bio,
      telegramUserId :=
        if jsTruthyTel merge.telegramUserId && !jsTruthyTel keep.telegramUserId then
          merge.telegramUserId
        else keep.telegramUserId,
      updatedAt := now }

/-- Model of `PeopleGraphHolder.mergePeople`: folds `mergeId` into `keepId`.  The
kept person's fields are updated by `mergedKeep`; relationships are
re-pointed from `mergeId` to `keepId` and self-loops filtered out; the
merged person is removed. -/
def mergePeople (g : PeopleGraph) (keepId mergeId : String) (now : Int) :
    Option Person × PeopleGraph :=
  match g.people.find? (fun p => decide (p.id = keepId)),
      g.people.find? (fun p => decide (p.id = mergeId)) with
  | some keep, some merge =>
      let newKeep := mergedKeep keep merge now
      let rels :=
        (g.relationships.map (fun r =>
          { r with
              personId1 := if decide (r.personId1 = mergeId) then keepId else r.personId1,
              personId2 := if decide (r.personId2 = mergeId) then keepId else r.personId2 })).filter
          (fun r => decide (r.personId1 ≠ r.personId2))
      let people :=
        (replaceFirst (fun p => decide (p.id = keepId)) newKeep g.people).filter
          (fun p => decide (p.id ≠ mergeId))
      (some newKeep, { people := people, relationships := rels })
  | _, _ => (none, g)

/-! ### Person-mutation steps of the extraction pipeline
(`extractAndStoreMemories` in `src/ai/extract.ts`) -/

/-- The rename step: when a non-empty `rename` differs case-insensitively
from the current name, the display name is replaced and the old name pushed
as an alias unless already present case-insensitively. -/
def applyRename (p : Person) (rename : Option String) : Person :=
  match rename with
  | none => p
  | some newName =>
      if decide (newName ≠ "") && decide (jsToLower newName ≠ jsToLower p.name) then
        let oldName := p.name
        let p1 := { p with name := newName }
        if p1.aliases.any (fun a => decide (jsToLower a = jsToLower oldName)) then p1
        else { p1 with aliases := p1.aliases ++ [oldName] }
      else p

/-- The alias-merge step: each supplied alias is appended when its lower-case
form is neither among the pre-existing aliases (frozen `Set`) nor equal to
the current primary name. -/
def applyAliasMerge (p : Person) (aliases : Option (List String)) : Person :=
  match aliases with
  | none => p
  | some as =>
      if as.length > 0 then
        let existing := p.aliases.map jsToLower
        { p with aliases := p.aliases ++ as.filter (fun a =>
            !(existing.contains (jsToLower a))
              && decide (jsToLower a ≠ jsToLower p.name)) }
      else p

/-- The bio step: a non-empty `bio_snippet` replaces the bio, capped at 50
characters. -/
def applyBioSnippet (p : Person) (bio : Option String) : Person :=
  match bio with
  | none => p
  | some b => if decide (b ≠ "") then { p with bio := b.take 50 } else p

/-! ### Alias/name mutual-exclusivity invariant -/

/-- A person's aliases are case-insensitively distinct from the primary name
and from each other. -/
def personAliasOk (p : Person) : Bool :=
  p.aliases.all (fun a => decide (jsToLower a ≠ jsToLower p.name))
    && decide (p.aliases.map jsToLower).Nodup

/-- The alias/name mutual-exclusivity invariant over the whole graph. -/
def graphAliasInv (g : PeopleGraph) : Bool :=
  g.people.all personAliasOk

/-! ### Concrete graphs used by individual claims -/

/-- Build a person with the given id, name, aliases and bio. -/
def mkPerson (i n : String) (al : List String) (b : String) : Person :=
  { id := i, name := n, aliases := al, telegramUserId := none, bio := b,
    createdAt := 0, updatedAt := 0 }

/-- Build a `friend` relationship with the given id and endpoints. -/
def mkFriendRel (i p1 p2 : String) : Relationship :=
  { id := i, personId1 := p1, personId2 := p2, type := RelationshipType.friend,
    label := "f", createdAt := 0 }

/-- Two persons whose bios are both non-empty. -/
def graphBothBios : PeopleGraph :=
  { people := [mkPerson "a" "Nathan" [] "engineer",
               mkPerson "b" "Nate" [] "developer"],
    relationships := [] }

/-- C3: `mergePeople` concatenates the two bios when both are non-empty,
instead of keeping the kept person's bio.  This contradicts the unit test
`keeps primary bio when both have bios`, which expects `"engineer"`. -/
theorem mergePeople_bio_concat_bug :
    ((mergePeople graphBothBios "a" "b" 9).1.map Person.bio)
      = some "engineer developer" := by decide

/-- Three persons where both `a` (kept) and `b` (merged) are friends of `c`. -/
def graphDupAfterMerge : PeopleGraph :=
  { people := [mkPerson "a" "A" [] "", mkPerson "b" "B" [] "",
               mkPerson "c" "C" [] ""],
    relationships := [mkFriendRel "r1" "a" "c", mkFriendRel "r2" "b" "c"] }

/-- C4: after `mergePeople "a" "b"` the graph holds two `friend`
relationships between the unordered pair `{a, c}` — the merge filter removes
only self-loops, so the invariant "at most one Relationship of a given type
per unordered pair" is violated, contradicting the code's own comment
`Remove self-referencing relationships and duplicates`. -/
theorem mergePeople_duplicate_relationship_bug :
    ((mergePeople graphDupAfterMerge "a" "b" 9).2.relationships.filter
      (fun r => decide (r.type = RelationshipType.friend)
        && ((decide (r.personId1 = "a") && decide (r.personId2 = "c"))
          || (decide (r.personId1 = "c") && decide (r.personId2 = "a"))))).length
      = 2 := by decide

/-- C10: merging a person into itself reports success yet removes the person
from the people list, while every relationship between that person and
another person survives untouched, still referencing the deleted id. -/
theorem mergePeople_self_destructive (g : PeopleGraph) (xid : String)
    (x : Person) (now : Int)
    (hx : g.people.find? (fun p => decide (p.id = xid)) = some x) :
    ((mergePeople g xid xid now).1.isSome = true)
    ∧ (∀ p ∈ (mergePeople g xid xid now).2.people, p.id ≠ xid)
    ∧ (∀ r ∈ g.relationships, (r.personId1 = xid ∨ r.personId2 = xid) →
        r.personId1 ≠ r.personId2 →
        r ∈ (mergePeople g xid xid now).2.relationships) := by
  simp only [mergePeople, hx]
  refine ⟨rfl, ?_, ?_⟩
  · intro p hp
    have := (List.mem_filter.mp hp).2
    simpa using this
  · intro r hr htouch hneq
    refine List.mem_filter.mpr ⟨?_, by simpa using hneq⟩
    refine List.mem_map.mpr ⟨r, hr, ?_⟩
    have e1 : (if r.personId1 = xid then xid else r.personId1) = r.personId1 := by
      by_cases h : r.personId1 = xid
      · simp [h]
      · simp [h]
    have e2 : (if r.personId2 = xid then xid else r.personId2) = r.personId2 := by
      by_cases h : r.personId2 = xid
      · simp [h]
      · simp [h]
    cases r with
    | mk rid rp1 rp2 rt rl rc => simp_all

/-- Single person `x` with a (dangling-after-merge) edge to `y`. -/
def graphSelfMerge : PeopleGraph :=
  { people := [mkPerson "x" "X" [] "bio"],
    relationships := [mkFriendRel "r1" "x" "y"] }

/-- Witness for C10 at a concrete input: self-merging `x` succeeds, yet the
edge `r1` between `x` and `y` survives in the post-merge graph (and the
people list no longer contains `x`). -/
theorem mergePeople_self_destructive_witness :
    ((mergePeople graphSelfMerge "x" "x" 9).1.isSome = true)
    ∧ mkFriendRel "r1" "x" "y"
        ∈ (mergePeople graphSelfMerge "x" "x" 9).2.relationships := by
  have h := mergePeople_self_destructive graphSelfMerge "x"
    (mkPerson "x" "X" [] "bio") 9 (by decide)
  exact ⟨h.1, h.2.2 (mkFriendRel "r1" "x" "y") (by decide)
    (Or.inl (by decide)) (by decide)⟩

/-- The condition under which `addRelationship` refuses to insert: an unknown
endpoint, or an existing relationship of the same type between the unordered
pair. -/
def addRelBlocked (g : PeopleGraph) (personId1 personId2 : String)
    (t : RelationshipType) : Prop :=
  (¬ ∃ p ∈ g.people, p.id = personId1)
  ∨ (¬ ∃ p ∈ g.people, p.id = personId2)
  ∨ (∃ r ∈ g.relationships, r.type = t
      ∧ ((r.personId1 = personId1 ∧ r.personId2 = personId2)
        ∨ (r.personId1 = personId2 ∧ r.personId2 = personId1)))

/-- C6: `addRelationship` returns `null` with the graph unchanged exactly
when an endpoint is unknown or a relationship of the same type already
exists between the pair in either order; otherwise it appends and returns a
new relationship with the given endpoints, type and label. -/
theorem addRelationship_spec (g : PeopleGraph) (personId1 personId2 : String)
    (t : RelationshipType) (label newId : String) (now : Int) :
    (addRelationship g personId1 personId2 t label newId now = (none, g)
      ↔ addRelBlocked g personId1 personId2 t)
    ∧ (¬ addRelBlocked g personId1 personId2 t →
        addRelationship g personId1 personId2 t label newId now =
          (some { id := newId, personId1 := personId1, personId2 := personId2,
                  type := t, label := label, createdAt := now },
           { g with relationships := g.relationships ++
              [{ id := newId, personId1 := personId1, personId2 := personId2,
                 type := t, label := label, createdAt := now }] })) := by
  have hex1 : (g.people.find? (fun p => decide (p.id = personId1))).isNone = true
      ↔ ¬ ∃ p ∈ g.people, p.id = personId1 := by
    rw [Option.isNone_iff_eq_none, List.find?_eq_none]
    simp
  have hex2 : (g.people.find? (fun p => decide (p.id = personId2))).isNone = true
      ↔ ¬ ∃ p ∈ g.people, p.id = personId2 := by
    rw [Option.isNone_iff_eq_none, List.find?_eq_none]
    simp
  have hex3 : (g.relationships.any (fun r =>
      decide (r.type = t)
        && ((decide (r.personId1 = personId1) && decide (r.personId2 = personId2))
          || (decide (r.personId1 = personId2) && decide (r.personId2 = personId1))))) = true
      ↔ (∃ r ∈ g.relationships, r.type = t
          ∧ ((r.personId1 = personId1 ∧ r.personId2 = personId2)
            ∨ (r.personId1 = personId2 ∧ r.personId2 = personId1))) := by
    rw [List.any_eq_true]
    simp
  by_cases h1 : (g.people.find? (fun p => decide (p.id = personId1))).isNone = true
  · have hb : addRelBlocked g personId1 personId2 t := Or.inl (hex1.mp h1)
    refine ⟨iff_of_true ?_ hb, fun hn => absurd hb hn⟩
    simp only [addRelationship, if_pos h1]
  · by_cases h2 : (g.people.find? (fun p => decide (p.id = personId2))).isNone = true
    · have hb : addRelBlocked g personId1 personId2 t := Or.inr (Or.inl (hex2.mp h2))
      refine ⟨iff_of_true ?_ hb, fun hn => absurd hb hn⟩
      simp only [addRelationship, if_neg h1, if_pos h2]
    · by_cases h3 : (g.relationships.any (fun r =>
          decide (r.type = t)
            && ((decide (r.personId1 = personId1) && decide (r.personId2 = personId2))
              || (decide (r.personId1 = personId2) && decide (r.personId2 = personId1))))) = true
      · have hb : addRelBlocked g personId1 personId2 t :=
          Or.inr (Or.inr (hex3.mp h3))
        refine ⟨iff_of_true ?_ hb, fun hn => absurd hb hn⟩
        simp only [addRelationship, if_neg h1, if_neg h2, if_pos h3]
      · have hnb : ¬ addRelBlocked g personId1 personId2 t := by
          intro hb
          rcases hb with hb | hb | hb
          · exact h1 (hex1.mpr hb)
          · exact h2 (hex2.mpr hb)
          · exact h3 (hex3.mpr hb)
        constructor
        · simp only [addRelationship, if_neg h1, if_neg h2, if_neg h3]
          constructor
          · intro he
            exact absurd (congrArg Prod.fst he) (by simp)
          · intro hb; exact absurd hb hnb
        · intro _
          simp only [addRelationship, if_neg h1, if_neg h2, if_neg h3]

/-- Two unrelated persons, no relationships yet. -/
def graphTwoPeople : PeopleGraph :=
  { people := [mkPerson "a" "A" [] "", mkPerson "b" "B" [] ""],
    relationships := [] }

/-- Witness for C6 at a concrete input: with both endpoints present and no
existing edge, `addRelationship` appends and returns the new relationship;
and on the resulting graph the same pair in reversed order is refused. -/
theorem addRelationship_spec_witness :
    addRelationship graphTwoPeople "a" "b" RelationshipType.sibling "sibs" "r1" 3 =
      (some { id := "r1", personId1 := "a", personId2 := "b",
              type := RelationshipType.sibling, label := "sibs", createdAt := 3 },
       { graphTwoPeople with relationships :=
          [{ id := "r1", personId1 := "a", personId2 := "b",
             type := RelationshipType.sibling, label := "sibs", createdAt := 3 }] })
    ∧ addRelationship
        { graphTwoPeople with relationships :=
           [{ id := "r1", personId1 := "a", personId2 := "b",
              type := RelationshipType.sibling, label := "sibs", createdAt := 3 }] }
        "b" "a" RelationshipType.sibling "sibs" "r2" 4 =
      (none,
       { graphTwoPeople with relationships :=
          [{ id := "r1", personId1 := "a", personId2 := "b",
             type := RelationshipType.sibling, label := "sibs", createdAt := 3 }] }) := by
  constructor
  · exact (addRelationship_spec graphTwoPeople "a" "b" RelationshipType.sibling
      "sibs" "r1" 3).2 (by unfold addRelBlocked; decide)
  · exact ((addRelationship_spec
      { graphTwoPeople with relationships :=
         [{ id := "r1", personId1 := "a", personId2 := "b",
            type := RelationshipType.sibling, label := "sibs", createdAt := 3 }] }
      "b" "a" RelationshipType.sibling "sibs" "r2" 4).1).mpr
      (by unfold addRelBlocked; decide)

/-! ### Helper lemmas about list search, replacement and dedup -/

theorem mem_insertionDedupAux (a : String) :
    ∀ (l seen : List String), a ∈ l → a ∉ seen → a ∈ insertionDedupAux seen l := by
  intro l
  induction l with
  | nil => intro seen h _; cases h
  | cons b t ih =>
    intro seen hmem hseen
    simp only [insertionDedupAux]
    rcases List.mem_cons.mp hmem with rfl | hmem
    · rw [if_neg hseen]
      exact List.mem_cons_self _ _
    · by_cases hb : b ∈ seen
      · rw [if_pos hb]; exact ih seen hmem hseen
      · rw [if_neg hb]
        by_cases hab : a = b
        · subst hab; exact List.mem_cons_self _ _
        · refine List.mem_cons_of_mem _ (ih (b :: seen) hmem ?_)
          intro h
          rcases List.mem_cons.mp h with h | h
          · exact hab h
          · exact hseen h

theorem mem_insertionDedup {a : String} {l : List String} (h : a ∈ l) :
    a ∈ insertionDedup l :=
  mem_insertionDedupAux a l [] h (by simp)

theorem mem_replaceFirst {α : Type} (p : α → Bool) (q : α) :
    ∀ (l : List α) (b : α), b ∈ replaceFirst p q l → b = q ∨ b ∈ l := by
  intro l
  induction l with
  | nil =>
    intro b h
    simp only [replaceFirst] at h
    cases h
  | cons a as ih =>
    intro b h
    simp only [replaceFirst] at h
    by_cases hp : p a
    · rw [if_pos hp] at h
      rcases List.mem_cons.mp h with rfl | h
      · exact Or.inl rfl
      · exact Or.inr (List.mem_cons_of_mem _ h)
    · rw [if_neg hp] at h
      rcases List.mem_cons.mp h with rfl | h
      · exact Or.inr (List.mem_cons_self _ _)
      · rcases ih b h with h | h
        · exact Or.inl h
        · exact Or.inr (List.mem_cons_of_mem _ h)

theorem replaceFirst_self_mem {α : Type} (p : α → Bool) (q : α) :
    ∀ (l : List α) (a : α), l.find? p = some a → q ∈ replaceFirst p q l := by
  intro l
  induction l with
  | nil => intro a h; simp [List.find?] at h
  | cons x xs ih =>
    intro a h
    simp only [replaceFirst]
    by_cases hp : p x = true
    · rw [if_pos hp]; exact List.mem_cons_self _ _
    · rw [if_neg (by simpa using hp)]
      rw [List.find?_cons_of_neg _ (by simpa using hp)] at h
      exact List.mem_cons_of_mem _ (ih a h)

theorem find?_eq_some_of_unique {α : Type} (p : α → Bool) :
    ∀ (l : List α) (a : α), a ∈ l → p a = true →
      (∀ b ∈ l, p b = true → b = a) → l.find? p = some a := by
  intro l
  induction l with
  | nil => intro a h; cases h
  | cons x xs ih =>
    intro a hmem hpa huniq
    by_cases hp : p x = true
    · have hxa : x = a := huniq x (List.mem_cons_self _ _) hp
      subst hxa
      exact List.find?_cons_of_pos _ hp
    · rw [List.find?_cons_of_neg _ (by simpa using hp)]
      rcases List.mem_cons.mp hmem with rfl | hmem
      · exact absurd hpa hp
      · exact ih a hmem hpa (fun b hb hpb => huniq b (List.mem_cons_of_mem _ hb) hpb)

/-! ### C5: merge preserves content, not identity -/

/-- A graph where the merged person has the kept person's exact name as an
alias, and a third person shadows the merged name. -/
def graphAliasShadow : PeopleGraph :=
  { people := [mkPerson "c" "Cara" ["Bob"] "", mkPerson "a" "Alice" [] "",
               mkPerson "b" "Bob" ["Alice"] ""],
    relationships := [] }

/-- C5 counterexample: merging `Bob` (with alias `"Alice"`) into `Alice`
does not preserve all of Bob's aliases — `"Alice"` is deleted because it
equals the kept primary name — and `findPersonByName "Bob"` afterwards
resolves to the third person `Cara` (whose alias list shadows the name),
not to the kept person. -/
theorem mergePeople_preserves_content_counterexample :
    "Alice" ∈ (mkPerson "b" "Bob" ["Alice"] "").aliases
    ∧ ((mergePeople graphAliasShadow "a" "b" 9).1.map Person.aliases)
        = some ["Bob"]
    ∧ ((findPersonByName (mergePeople graphAliasShadow "a" "b" 9).2 "Bob").map
        Person.id) = some "c" :=
  ⟨by decide, by decide, by decide⟩

/-- C5 amended: for distinct existing persons `A` and `B` such that `B` is
the only person matching `B`'s name and none of `B`'s aliases equals `A`'s
exact primary name, `mergePeople` keeps all of `B`'s aliases and `B`'s
former name as aliases of `A`, drops the relationships that became
self-referential, removes `B`, and `findPersonByName` on `B`'s old name
resolves to the merged `A`. -/
theorem mergePeople_preserves_content_amended
    (g : PeopleGraph) (A B : Person) (now : Int)
    (hA : g.people.find? (fun p => decide (p.id = A.id)) = some A)
    (hB : g.people.find? (fun p => decide (p.id = B.id)) = some B)
    (hne : A.id ≠ B.id)
    (huniq : ∀ p ∈ g.people, matchesName p B.name = true → p.id = B.id)
    (hAn : A.name ∉ B.aliases) :
    (mergePeople g A.id B.id now).1 = some (mergedKeep A B now)
    ∧ B.name ∈ (mergedKeep A B now).aliases
    ∧ (∀ a ∈ B.aliases, a ∈ (mergedKeep A B now).aliases)
    ∧ (∀ r ∈ (mergePeople g A.id B.id now).2.relationships,
        r.personId1 ≠ r.personId2)
    ∧ (∀ p ∈ (mergePeople g A.id B.id now).2.people, p.id ≠ B.id)
    ∧ findPersonByName (mergePeople g A.id B.id now).2 B.name
        = some (mergedKeep A B now) := by
  have hBnameA : B.name ≠ A.name := by
    intro h
    have hm : matchesName A B.name = true := by
      simp [matchesName, h]
    exact hne (huniq A (List.mem_of_find?_eq_some hA) hm)
  have haliasB : B.name ∈ (mergedKeep A B now).aliases := by
    refine List.mem_filter.mpr ⟨mem_insertionDedup (by simp), ?_⟩
    simpa using hBnameA
  refine ⟨?_, haliasB, ?_, ?_, ?_, ?_⟩
  · simp only [mergePeople, hA, hB]
  · intro a ha
    refine List.mem_filter.mpr ⟨mem_insertionDedup (by simp [ha]), ?_⟩
    have : a ≠ A.name := fun h => hAn (h ▸ ha)
    simpa using this
  · intro r hr
    simp only [mergePeople, hA, hB] at hr
    simpa using (List.mem_filter.mp hr).2
  · intro p hp
    simp only [mergePeople, hA, hB] at hp
    simpa using (List.mem_filter.mp hp).2
  · simp only [mergePeople, hA, hB, findPersonByName]
    refine find?_eq_some_of_unique _ _ _ ?_ ?_ ?_
    · refine List.mem_filter.mpr
        ⟨replaceFirst_self_mem _ _ g.people A hA, ?_⟩
      simpa using hne
    · simp only [matchesName, Bool.or_eq_true, List.any_eq_true]
      exact Or.inr ⟨B.name, haliasB, by simp⟩
    · intro b hb hmb
      have hb1 := (List.mem_filter.mp hb).1
      have hb2 := (List.mem_filter.mp hb).2
      rcases mem_replaceFirst _ _ _ _ hb1 with rfl | hbg
      · rfl
      · exact absurd (huniq b hbg hmb) (by simpa using hb2)

/-- A clean two-person graph for the C5 witness. -/
def graphMergeClean : PeopleGraph :=
  { people := [mkPerson "a" "Alice" [] "", mkPerson "b" "Bob" ["Bobby"] ""],
    relationships := [] }

/-- Witness for the amended C5 at a concrete input. -/
theorem mergePeople_preserves_content_amended_witness :
    (mergePeople graphMergeClean "a" "b" 9).1
      = some (mergedKeep (mkPerson "a" "Alice" [] "")
          (mkPerson "b" "Bob" ["Bobby"] "") 9)
    ∧ "Bob" ∈ (mergedKeep (mkPerson "a" "Alice" [] "")
          (mkPerson "b" "Bob" ["Bobby"] "") 9).aliases
    ∧ findPersonByName (mergePeople graphMergeClean "a" "b" 9).2 "Bob"
      = some (mergedKeep (mkPerson "a" "Alice" [] "")
          (mkPerson "b" "Bob" ["Bobby"] "") 9) := by
  have h := mergePeople_preserves_content_amended graphMergeClean
    (mkPerson "a" "Alice" [] "") (mkPerson "b" "Bob" ["Bobby"] "") 9
    (by decide) (by decide) (by decide) (by decide) (by decide)
  exact ⟨h.1, h.2.1, h.2.2.2.2.2⟩

/-! ### C7: alias/name mutual-exclusivity invariant -/

/-- C7 counterexample: each of `updatePerson`, `mergePeople`, the extraction
rename step and the extraction alias-merge step can take a state satisfying
the alias/name mutual-exclusivity invariant to one violating it:
`updatePerson` installs the supplied aliases verbatim; `mergePeople`
deduplicates case-sensitively and excludes only the exact kept name; the
rename step does not re-check the new name against existing aliases; and
the alias-merge step does not check the newly added aliases against each
other. -/
theorem aliasInv_not_preserved_counterexample :
    (graphAliasInv { people := [mkPerson "a" "Nathan" [] ""],
                     relationships := [] } = true
      ∧ graphAliasInv (updatePerson
          { people := [mkPerson "a" "Nathan" [] ""], relationships := [] }
          "a" { aliases := some ["Nathan"] } 9).2 = false)
    ∧ (graphAliasInv { people := [mkPerson "a" "Nathan" [] "",
                                  mkPerson "b" "Nate" ["NATHAN"] ""],
                       relationships := [] } = true
      ∧ graphAliasInv (mergePeople
          { people := [mkPerson "a" "Nathan" [] "",
                       mkPerson "b" "Nate" ["NATHAN"] ""],
            relationships := [] } "a" "b" 9).2 = false)
    ∧ (personAliasOk (mkPerson "a" "John" ["Johnny"] "") = true
      ∧ personAliasOk (applyRename (mkPerson "a" "John" ["Johnny"] "")
          (some "JOHNNY")) = false)
    ∧ (personAliasOk (mkPerson "a" "Nathan" [] "") = true
      ∧ personAliasOk (applyAliasMerge (mkPerson "a" "Nathan" [] "")
          (some ["Nate", "NATE"])) = false) :=
  ⟨⟨by decide, by decide⟩, ⟨by decide, by decide⟩,
   ⟨by decide, by decide⟩, ⟨by decide, by decide⟩⟩

/-- C7 amended: among the name/alias-mutating operations, only
`findOrCreatePerson` unconditionally preserves the alias/name
mutual-exclusivity invariant (it either returns an existing person
unchanged or creates one with an empty alias set). -/
theorem findOrCreatePerson_preserves_aliasInv (g : PeopleGraph)
    (name newId : String) (now : Int) (h : graphAliasInv g = true) :
    graphAliasInv (findOrCreatePerson g name newId now).2 = true := by
  unfold findOrCreatePerson
  cases hf : findPersonByName g name with
  | some p => simpa using h
  | none =>
    simp only [graphAliasInv, List.all_append] at *
    simp [h, personAliasOk]

/-- Witness for the amended C7 at a concrete input: creating a person in the
empty graph preserves the invariant. -/
theorem findOrCreatePerson_preserves_aliasInv_witness :
    graphAliasInv ({ people := [], relationships := [] } : PeopleGraph) = true
    ∧ graphAliasInv (findOrCreatePerson
        { people := [], relationships := [] } "Ann" "p1" 0).2 = true :=
  ⟨by decide,
   findOrCreatePerson_preserves_aliasInv
     { people := [], relationships := [] } "Ann" "p1" 0 (by decide)⟩

/-! ### C9: `MemoryStore.updateMemory` -/

/-- The `Memory` record returned to callers (`src/shared/types.ts`), without
the embedding. -/
structure Memory where
  id : String
  userId : Int
  content : String
  type : MemoryType
  tags : String
  timestamp : Int
  photoFileId : Option String
  source : Option String
  subjectName : Option String
  deriving DecidableEq, Repr

/-- The `updates` argument of `updateMemory`.  An outer `none` means the
field is absent; `subjectName` may be supplied as an explicit `null`
(`some none`). -/
structure MemUpdates where
  content : Option String := none
  type : Option MemoryType := none
  tags : Option String := none
  subjectName : Option (Option String) := none
  deriving DecidableEq, Repr

/-- The JavaScript coercion `(x as string) || null`: maps the empty string
(falsy) to `null` and passes everything else through. -/
def jsOrNull : Option String → Option String
  | some s => if s = "" then none else some s
  | none => none

/-- The full row `updateMemory` re-inserts: content/type/tags replaced when
supplied, `timestamp` kept, nullable string fields passed through the
`|| null` coercion, and the embedding recomputed only when a differing
content is supplied. -/
def updatedRow {V : Type} (embed : String → V) (row : MemRow V)
    (u : MemUpdates) : MemRow V :=
  let newContent := u.content.getD row.content
  let needsReEmbed := match u.content with
    | some c => decide (c ≠ row.content)
    | none => false
  { id := row.id, userId := row.userId, content := newContent,
    type := u.type.getD row.type,
    tags := u.tags.getD row.tags,
    timestamp := row.timestamp,
    photoFileId := jsOrNull row.photoFileId,
    source := jsOrNull row.source,
    subjectName := match u.subjectName with
      | some v => jsOrNull v
      | none => jsOrNull row.subjectName,
    vector := if needsReEmbed then embed newContent else row.vector }

/-- The `Memory` object `updateMemory` returns (built from the re-inserted
row; its nullable fields are already `|| null`-normalized). -/
def memoryOfRow {V : Type} (r : MemRow V) : Memory :=
  { id := r.id, userId := r.userId, content := r.content, type := r.type,
    tags := r.tags, timestamp := r.timestamp, photoFileId := r.photoFileId,
    source := r.source, subjectName := r.subjectName }

/-- Model of `MemoryStore.updateMemory(id, updates)`: fetches the first row with the
given id (`null` when none), then deletes every row with that id and
re-inserts the updated row. -/
def updateMemory {V : Type} (embed : String → V) (store : List (MemRow V))
    (id : String) (u : MemUpdates) : Option Memory × List (MemRow V) :=
  match store.filter (fun r => decide (r.id = id)) with
  | [] => (none, store)
  | row :: _ =>
      let updated := updatedRow embed row u
      (some (memoryOfRow updated),
       store.filter (fun r => decide (r.id ≠ id)) ++ [updated])

/-- A stored row whose nullable string fields hold empty strings. -/
def rowEmptyStrings : MemRow Nat :=
  { id := "m1", userId := 7, content := "c", type := MemoryType.diary_entry,
    tags := "t", timestamp := 11, photoFileId := some "", source := some "",
    subjectName := some "", vector := 0 }

/-- C9 counterexample: an update that does not supply `photoFileId`, `source`
or `subjectName` does not pass a stored empty string through unchanged — the
`|| null` coercion rewrites all three to `null`. -/
theorem updateMemory_passthrough_counterexample :
    rowEmptyStrings.photoFileId = some ""
    ∧ ((updateMemory (fun _ => (0 : Nat)) [rowEmptyStrings] "m1"
        { type := some MemoryType.user_fact }).2.map
          (fun r => (r.photoFileId, r.source, r.subjectName)))
      = [(none, none, none)] :=
  ⟨by decide, by decide⟩

/-- C9 amended: `updateMemory` returns `null` and leaves the store unchanged
when no row has the id; otherwise it replaces the first matching row,
keeping `timestamp` and `userId`, keeping type/tags/content unless supplied,
recomputing the embedding exactly when a differing content is supplied, and
passing the nullable string fields through the `|| null` normalization. -/
theorem updateMemory_frame_amended {V : Type} (embed : String → V)
    (store : List (MemRow V)) (id : String) (u : MemUpdates) :
    ((∀ r ∈ store, r.id ≠ id) →
      updateMemory embed store id u = (none, store))
    ∧ (∀ row rest, store.filter (fun r => decide (r.id = id)) = row :: rest →
        updateMemory embed store id u
          = (some (memoryOfRow (updatedRow embed row u)),
             store.filter (fun r => decide (r.id ≠ id)) ++ [updatedRow embed row u])
        ∧ (updatedRow embed row u).timestamp = row.timestamp
        ∧ (updatedRow embed row u).userId = row.userId
        ∧ (updatedRow embed row u).content = u.content.getD row.content
        ∧ (u.type = none → (updatedRow embed row u).type = row.type)
        ∧ (u.tags = none → (updatedRow embed row u).tags = row.tags)
        ∧ (updatedRow embed row u).photoFileId = jsOrNull row.photoFileId
        ∧ (updatedRow embed row u).source = jsOrNull row.source
        ∧ (u.subjectName = none →
            (updatedRow embed row u).subjectName = jsOrNull row.subjectName)
        ∧ (u.content = none → (updatedRow embed row u).vector = row.vector)
        ∧ (∀ c, u.content = some c → c = row.content →
            (updatedRow embed row u).vector = row.vector)
        ∧ (∀ c, u.content = some c → c ≠ row.content →
            (updatedRow embed row u).vector = embed c)) := by
  constructor
  · intro hnone
    have hfil : store.filter (fun r => decide (r.id = id)) = [] := by
      rw [List.filter_eq_nil_iff]
      intro r hr
      simpa using hnone r hr
    simp [updateMemory, hfil]
  · intro row rest hfil
    refine ⟨by simp [updateMemory, hfil], rfl, rfl, rfl, ?_, ?_, rfl, rfl, ?_, ?_, ?_, ?_⟩
    · intro h; simp [updatedRow, h]
    · intro h; simp [updatedRow, h]
    · intro h; simp [updatedRow, h]
    · intro h; simp [updatedRow, h]
    · intro c hc hceq; simp [updatedRow, hc, hceq]
    · intro c hc hcne; simp [updatedRow, hc, hcne]

/-- A plain stored row for the C9 witness. -/
def rowPlain : MemRow Nat :=
  { id := "m2", userId := 3, content := "old", type := MemoryType.user_fact,
    tags := "t", timestamp := 4, photoFileId := some "p", source := none,
    subjectName := some "S", vector := 0 }

/-- Witness for the amended C9 at a concrete input: updating the content of
the only row keeps its timestamp and recomputes the embedding. -/
theorem updateMemory_frame_amended_witness :
    (updatedRow (fun _ => (1 : Nat)) rowPlain { content := some "new" }).timestamp
      = rowPlain.timestamp
    ∧ (updatedRow (fun _ => (1 : Nat)) rowPlain { content := some "new" }).vector
      = 1
    ∧ updateMemory (fun _ => (1 : Nat)) [rowPlain] "m2" { content := some "new" }
      = (some (memoryOfRow (updatedRow (fun _ => (1 : Nat)) rowPlain
          { content := some "new" })),
         [updatedRow (fun _ => (1 : Nat)) rowPlain { content := some "new" }]) := by
  have h := (updateMemory_frame_amended (fun _ => (1 : Nat)) [rowPlain] "m2"
    { content := some "new" }).2 rowPlain [] (by decide)
  refine ⟨h.2.1, ?_, ?_⟩
  · exact h.2.2.2.2.2.2.2.2.2.2.2 "new" rfl (by decide)
  · simpa using h.1

/-! ### C8: `parseExtraction` in `src/ai/extract.ts`

`JSON.parse` is an external primitive and is passed in as a parameter; the
JSON value model and everything after parsing follow the source.  A member
access on `null` throws a `TypeError`, which the surrounding `try`/`catch`
converts into the empty result; this is modelled with `Except Unit`.  On any
non-`null` value a field access never throws (it yields `undefined`,
modelled as `none`), so the filter callbacks are `.error` exactly on `null`
and otherwise compute their boolean result. -/

/-- A parsed JSON value (`JSON.parse` output). -/
inductive JValue where
  | null
  | bool (b : Bool)
  | num (n : Int)
  | str (s : String)
  | arr (elems : List JValue)
  | obj (fields : List (String × JValue))

/-- Field lookup in an object's field list. -/
def jlookup : List (String × JValue) → String → Option JValue
  | [], _ => none
  | (k, v) :: rest, key => if k = key then some v else jlookup rest key

/-- Pure member access: a field of an object, `undefined` (`none`) on
everything else.  Safe only on non-`null` values. -/
def jfield : JValue → String → Option JValue
  | .obj fs, key => jlookup fs key
  | _, _ => none

/-- The memory filter predicate: non-empty string `content`, `type` among
the three accepted kind strings, `tags` an array. -/
def validMemB (m : JValue) : Bool :=
  (match jfield m "content" with
   | some (.str s) => decide (s.length > 0)
   | _ => false)
  && (match jfield m "type" with
      | some (.str t) =>
          decide (t = "diary_entry") || decide (t = "user_fact")
            || decide (t = "photo_memory")
      | _ => false)
  && (match jfield m "tags" with
      | some (.arr _) => true
      | _ => false)

/-- Test `v === null` (the only value on which a member access throws; `undefined`
does not occur in `JSON.parse` output). -/
def jsIsNull : JValue → Bool
  | .null => true
  | _ => false

/-- The memory filter callback as executed: throws on a `null` entry. -/
def validMemE (m : JValue) : Except Unit Bool :=
  if jsIsNull m then .error () else .ok (validMemB m)

/-- The people-update filter predicate: non-empty string `name`. -/
def validNameB (p : JValue) : Bool :=
  match jfield p "name" with
  | some (.str s) => decide (s.length > 0)
  | _ => false

/-- The people-update filter callback as executed: throws on `null`. -/
def validNameE (p : JValue) : Except Unit Bool :=
  if jsIsNull p then .error () else .ok (validNameB p)

/-- The relationship-edge filter predicate: non-empty string `related_to`,
`type` in the closed enum, `label` a string (empty allowed). -/
def validEdgeB (r : JValue) : Bool :=
  (match jfield r "related_to" with
   | some (.str s) => decide (s.length > 0)
   | _ => false)
  && (match jfield r "type" with
      | some (.str t) => decide (t ∈ ["sibling", "parent", "child", "partner",
          "friend", "coworker", "pet", "other"])
      | _ => false)
  && (match jfield r "label" with
      | some (.str _) => true
      | _ => false)

/-- The relationship-edge filter callback as executed: throws on `null`. -/
def validEdgeE (r : JValue) : Except Unit Bool :=
  if jsIsNull r then .error () else .ok (validEdgeB r)

/-- Model of `Array.prototype.filter` with a callback that may throw. -/
def efilter {α : Type} (f : α → Except Unit Bool) : List α → Except Unit (List α)
  | [] => .ok []
  | a :: as => do
      let b ← f a
      let rest ← efilter f as
      pure (if b then a :: rest else rest)

/-- Model of `Array.prototype.map` with a callback that may throw. -/
def emap {α β : Type} (f : α → Except Unit β) : List α → Except Unit (List β)
  | [] => .ok []
  | a :: as => do
      let b ← f a
      let rest ← emap f as
      pure (b :: rest)

/-- The normalized people update produced by `parseExtraction` (raw kept
relationship objects, as in the source). -/
structure PeopleUpdateL where
  name : String
  rename : Option String
  aliases : Option (List String)
  bio_snippet : Option String
  relationships : Option (List JValue)

/-- The normalized core update. -/
structure CoreUpdatesL where
  name : Option String
  entries : Option (List JValue)

/-- The result of `parseExtraction`. -/
structure ExtractionResultL where
  memories : List JValue
  people_updates : Option (List PeopleUpdateL)
  core_updates : Option CoreUpdatesL

/-- The empty result: a memories list with nothing in it and no updates. -/
def emptyExtraction : ExtractionResultL :=
  { memories := [], people_updates := none, core_updates := none }

/-- JavaScript truthiness of a JSON value. -/
def jsTruthy : JValue → Bool
  | .null => false
  | .bool b => b
  | .num n => decide (n ≠ 0)
  | .str s => decide (s ≠ "")
  | .arr _ => true
  | .obj _ => true

/-- Test `typeof v === "object"` for a JSON value. -/
def jsTypeofObject : JValue → Bool
  | .null => true
  | .arr _ => true
  | .obj _ => true
  | _ => false

/-- The mapping step applied to each kept people update.  The entry is
non-`null` (its `name` passed the filter), so only the relationship
sub-filter can throw (on a `null` edge). -/
def normalizePUE (p : JValue) : Except Unit PeopleUpdateL :=
  if jsIsNull p then .error () else do
      let rels ← match jfield p "relationships" with
        | some (.arr rs) => do
            let kept ← efilter validEdgeE rs
            pure (some kept)
        | _ => pure (none : Option (List JValue))
      pure {
        name := match jfield p "name" with
          | some (.str s) => s
          | _ => "",
        rename := match jfield p "rename" with
          | some (.str s) => if decide (s.length > 0) then some s else none
          | _ => none,
        aliases := match jfield p "aliases" with
          | some (.arr xs) => some (xs.filterMap (fun x => match x with
              | .str s => some s
              | _ => none))
          | _ => none,
        bio_snippet := match jfield p "bio_snippet" with
          | some (.str s) => some s
          | _ => none,
        relationships := rels }

/-- The `core_updates` validation (throw-free: the guard rules out `null`
before any member access, and `typeof` never throws). -/
def validateCore (v : JValue) : Option CoreUpdatesL :=
  match jfield v "core_updates" with
  | some cu =>
      if jsTruthy cu && jsTypeofObject cu then
        let nameOk := match jfield cu "name" with
          | some (.str s) => decide (s.length > 0)
          | _ => false
        let entriesArr := match jfield cu "entries" with
          | some (.arr es) => some es
          | _ => none
        let hasEntries := match entriesArr with
          | some es => decide (es.length > 0)
          | none => false
        if nameOk || hasEntries then
          let nm := if nameOk then
              (match jfield cu "name" with
               | some (.str s) => some s
               | _ => none)
            else none
          let ents := if hasEntries then
              (match entriesArr with
               | some es => some (es.filter (fun e => match e with
                   | .str s => decide (s.length > 0)
                   | _ => false))
               | none => none)
            else none
          if nm.isNone && (match ents with
              | none => true
              | some l => decide (l.length = 0)) then none
          else some { name := nm, entries := ents }
        else none
      else none
  | none => none

/-- The body of the `try` block of `parseExtraction`, after `JSON.parse`
succeeded: top-level shape check, then the three validation passes. -/
def validateExtraction (v : JValue) : Except Unit ExtractionResultL :=
  if jsIsNull v then .error ()
  else
      match jfield v "memories" with
      | some (.arr ms) => do
          let kept ← efilter validMemE ms
          let pu ← match jfield v "people_updates" with
            | some (.arr ps) =>
                if decide (ps.length > 0) then do
                  let keptP ← efilter validNameE ps
                  let mapped ← emap normalizePUE keptP
                  pure (if mapped.length = 0 then none else some mapped)
                else pure (none : Option (List PeopleUpdateL))
            | _ => pure (none : Option (List PeopleUpdateL))
          pure { memories := kept, people_updates := pu,
                 core_updates := validateCore v }
      | _ => .ok emptyExtraction

/-- The ASCII whitespace characters matched by the `\s` class used in the
fence-stripping regexes. -/
def jsWhitespace (c : Char) : Bool :=
  decide (c = ' ') || decide (c = '\t') || decide (c = '\n')
    || decide (c = '\r') || decide (c = '\x0b') || decide (c = '\x0c')

/-- Try to match `` ```(?:json)?\s* `` at the head of the list; on success
return the remainder after the match. -/
def fence1Match : List Char → Option (List Char)
  | '`' :: '`' :: '`' :: rest =>
      let rest2 := match rest with
        | 'j' :: 's' :: 'o' :: 'n' :: r => r
        | r => r
      some (rest2.dropWhile jsWhitespace)
  | _ => none

/-- Replace the first match of `` /^```(?:json)?\s*/m `` by the empty
string: the pattern may anchor at the start or after any newline. -/
def replaceFence1Aux (atStart : Bool) : List Char → List Char
  | [] => []
  | c :: cs =>
      if atStart then
        match fence1Match (c :: cs) with
        | some rest => rest
        | none => c :: replaceFence1Aux (decide (c = '\n')) cs
      else c :: replaceFence1Aux (decide (c = '\n')) cs

/-- Try to match `` \s*```$ `` at the head of the list (`$` in multiline
mode: before a line terminator or at the end); on success return the
remainder (the lookahead terminator is not consumed). -/
def fence2Match (l : List Char) : Option (List Char) :=
  match l.dropWhile jsWhitespace with
  | '`' :: '`' :: '`' :: r =>
      match r with
      | [] => some []
      | '\n' :: _ => some r
      | '\r' :: _ => some r
      | _ => none
  | _ => none

/-- Replace the leftmost match of `` /\s*```$/m `` by the empty string. -/
def replaceFence2Aux : List Char → List Char
  | [] => []
  | c :: cs =>
      match fence2Match (c :: cs) with
      | some rest => rest
      | none => c :: replaceFence2Aux cs

/-- Model of `String.prototype.trim()`. -/
def trimChars (l : List Char) : List Char :=
  ((l.dropWhile jsWhitespace).reverse.dropWhile jsWhitespace).reverse

/-- The fence-stripping of `parseExtraction`:
`text.replace(/^```(?:json)?\s*\/m, "").replace(/\s*```$/m, "").trim()`. -/
def stripFences (text : String) : String :=
  ⟨trimChars (replaceFence2Aux (replaceFence1Aux true text.data))⟩

/-- Model of `parseExtraction(text)`: strip fences, `JSON.parse` (external, passed as
a parameter; `none` models a parse exception), validate; any exception
yields `{ memories: [] }`. -/
def parseExtraction (parseJson : String → Option JValue) (text : String) :
    ExtractionResultL :=
  match parseJson (stripFences text) with
  | none => emptyExtraction
  | some v =>
      match validateExtraction v with
      | .ok r => r
      | .error _ => emptyExtraction

/-! ### Declarative characterization of `parseExtraction` -/

/-- The raw candidate list behind `parsed.memories` (empty when the field is
missing or not an array). -/
def memsArr (v : JValue) : List JValue :=
  match jfield v "memories" with
  | some (.arr ms) => ms
  | _ => []

/-- The throw-free normalization of a people update (reference function for
the characterization: relationship edges filtered by the pure predicate). -/
def normalizePUpure (p : JValue) : PeopleUpdateL :=
  { name := match jfield p "name" with
      | some (.str s) => s
      | _ => "",
    rename := match jfield p "rename" with
      | some (.str s) => if decide (s.length > 0) then some s else none
      | _ => none,
    aliases := match jfield p "aliases" with
      | some (.arr xs) => some (xs.filterMap (fun x => match x with
          | .str s => some s
          | _ => none))
      | _ => none,
    bio_snippet := match jfield p "bio_snippet" with
      | some (.str s) => some s
      | _ => none,
    relationships := match jfield p "relationships" with
      | some (.arr rs) => some (rs.filter validEdgeB)
      | _ => none }

/-- The declarative people-updates result: present only when the top-level
shape is valid, `people_updates` is a non-empty array, and at least one
entry survives the name filter. -/
def specPU (v : JValue) : Option (List PeopleUpdateL) :=
  match jfield v "memories" with
  | some (.arr _) =>
      match jfield v "people_updates" with
      | some (.arr ps) =>
          if decide (ps.length > 0) then
            let mapped := (ps.filter validNameB).map normalizePUpure
            if mapped.length = 0 then none else some mapped
          else none
      | _ => none
  | _ => none

theorem except_bind_ok {α β : Type} (a : α) (k : α → Except Unit β) :
    (Except.ok a >>= k) = k a := rfl

theorem except_bind_error {α β : Type} (k : α → Except Unit β) :
    ((Except.error () : Except Unit α) >>= k) = .error () := rfl

theorem except_pure_eq {β : Type} (b : β) :
    (pure b : Except Unit β) = .ok b := rfl

/-- A partial filter whose callback agrees with `fB` whenever it succeeds
computes the pure filter on success. -/
theorem efilter_ok_eq_filter {α : Type} {f : α → Except Unit Bool}
    {fB : α → Bool} (hf : ∀ a b, f a = .ok b → b = fB a) :
    ∀ (l : List α) (out : List α), efilter f l = .ok out → out = l.filter fB := by
  intro l
  induction l with
  | nil =>
    intro out h
    simp only [efilter] at h
    cases h
    rfl
  | cons a as ih =>
    intro out h
    simp only [efilter] at h
    cases hfa : f a with
    | error e => rw [hfa] at h; cases e; rw [except_bind_error] at h; cases h
    | ok b =>
      rw [hfa, except_bind_ok] at h
      cases hrec : efilter f as with
      | error e => rw [hrec] at h; cases e; rw [except_bind_error] at h; cases h
      | ok rest =>
        rw [hrec, except_bind_ok, except_pure_eq] at h
        cases h
        rw [List.filter_cons, ← hf a b hfa, ih rest hrec]

/-- A partial map whose callback agrees with `g` whenever it succeeds
computes the pure map on success. -/
theorem emap_ok_eq_map {α β : Type} {f : α → Except Unit β} {g : α → β}
    (hf : ∀ a b, f a = .ok b → b = g a) :
    ∀ (l : List α) (out : List β), emap f l = .ok out → out = l.map g := by
  intro l
  induction l with
  | nil =>
    intro out h
    simp only [emap] at h
    cases h
    rfl
  | cons a as ih =>
    intro out h
    simp only [emap] at h
    cases hfa : f a with
    | error e => rw [hfa] at h; cases e; rw [except_bind_error] at h; cases h
    | ok b =>
      rw [hfa, except_bind_ok] at h
      cases hrec : emap f as with
      | error e => rw [hrec] at h; cases e; rw [except_bind_error] at h; cases h
      | ok rest =>
        rw [hrec, except_bind_ok, except_pure_eq] at h
        cases h
        rw [List.map_cons, hf a b hfa, ih rest hrec]

theorem validMemE_ok (a : JValue) (b : Bool) (h : validMemE a = .ok b) :
    b = validMemB a := by
  by_cases hn : jsIsNull a = true
  · rw [validMemE, if_pos hn] at h; cases h
  · rw [validMemE, if_neg hn] at h; cases h; rfl

theorem validNameE_ok (a : JValue) (b : Bool) (h : validNameE a = .ok b) :
    b = validNameB a := by
  by_cases hn : jsIsNull a = true
  · rw [validNameE, if_pos hn] at h; cases h
  · rw [validNameE, if_neg hn] at h; cases h; rfl

theorem validEdgeE_ok (a : JValue) (b : Bool) (h : validEdgeE a = .ok b) :
    b = validEdgeB a := by
  by_cases hn : jsIsNull a = true
  · rw [validEdgeE, if_pos hn] at h; cases h
  · rw [validEdgeE, if_neg hn] at h; cases h; rfl

theorem normalizePUE_ok (p : JValue) (pu : PeopleUpdateL)
    (h : normalizePUE p = .ok pu) : pu = normalizePUpure p := by
  by_cases hn : jsIsNull p = true
  · rw [normalizePUE, if_pos hn] at h; cases h
  · rw [normalizePUE, if_neg hn] at h
    cases hr : jfield p "relationships" with
    | none =>
      simp only [hr, except_bind_ok, except_pure_eq] at h
      cases h
      simp [normalizePUpure, hr]
    | some w =>
      cases w with
      | arr rs =>
        simp only [hr] at h
        cases hef : efilter validEdgeE rs with
        | error e =>
          cases e
          simp only [hef, except_bind_error] at h
          cases h
        | ok kept =>
          simp only [hef, except_bind_ok, except_pure_eq] at h
          cases h
          have hk := efilter_ok_eq_filter validEdgeE_ok rs kept hef
          simp [normalizePUpure, hr, hk]
      | null =>
        simp only [hr, except_bind_ok, except_pure_eq] at h
        cases h
        simp [normalizePUpure, hr]
      | bool b =>
        simp only [hr, except_bind_ok, except_pure_eq] at h
        cases h
        simp [normalizePUpure, hr]
      | num n =>
        simp only [hr, except_bind_ok, except_pure_eq] at h
        cases h
        simp [normalizePUpure, hr]
      | str s =>
        simp only [hr, except_bind_ok, except_pure_eq] at h
        cases h
        simp [normalizePUpure, hr]
      | obj fs =>
        simp only [hr, except_bind_ok, except_pure_eq] at h
        cases h
        simp [normalizePUpure, hr]

/-- On success, the monadic validation computes the declarative filters:
the kept memories are exactly the candidates passing `validMemB`, and the
people updates are exactly `specPU`. -/
theorem validateExtraction_ok (v : JValue) (r : ExtractionResultL)
    (h : validateExtraction v = .ok r) :
    r.memories = (memsArr v).filter validMemB ∧ r.people_updates = specPU v := by
  by_cases hn : jsIsNull v = true
  · rw [validateExtraction, if_pos hn] at h; cases h
  · rw [validateExtraction, if_neg hn] at h
    cases hm : jfield v "memories" with
    | none =>
      simp only [hm] at h
      cases h
      exact ⟨by simp [emptyExtraction, memsArr, hm],
             by simp [emptyExtraction, specPU, hm]⟩
    | some w =>
      cases w with
      | arr ms =>
        simp only [hm] at h
        cases hk : efilter validMemE ms with
        | error e => cases e; simp only [hk, except_bind_error] at h; cases h
        | ok kept =>
          simp only [hk, except_bind_ok] at h
          have hkept := efilter_ok_eq_filter validMemE_ok ms kept hk
          cases hp : jfield v "people_updates" with
          | none =>
            simp only [hp, except_bind_ok, except_pure_eq] at h
            cases h
            exact ⟨by simp [memsArr, hm, hkept], by simp [specPU, hm, hp]⟩
          | some w2 =>
            cases w2 with
            | arr ps =>
              simp only [hp] at h
              by_cases hlen : decide (ps.length > 0) = true
              · rw [if_pos hlen] at h
                cases hkp : efilter validNameE ps with
                | error e =>
                  cases e
                  simp only [hkp, except_bind_error] at h
                  cases h
                | ok keptP =>
                  simp only [hkp, except_bind_ok] at h
                  cases hmap : emap normalizePUE keptP with
                  | error e =>
                    cases e
                    simp only [hmap, except_bind_error] at h
                    cases h
                  | ok mapped =>
                    simp only [hmap, except_bind_ok, except_pure_eq] at h
                    cases h
                    have h1 := efilter_ok_eq_filter validNameE_ok ps keptP hkp
                    have h2 := emap_ok_eq_map normalizePUE_ok keptP mapped hmap
                    refine ⟨by simp [memsArr, hm, hkept], ?_⟩
                    simp only [specPU, hm, hp, if_pos hlen]
                    rw [h2, h1]
              · rw [if_neg hlen] at h
                simp only [except_pure_eq, except_bind_ok] at h
                cases h
                refine ⟨by simp [memsArr, hm, hkept], ?_⟩
                simp only [specPU, hm, hp, if_neg hlen]
            | null =>
              simp only [hp, except_bind_ok, except_pure_eq] at h
              cases h
              exact ⟨by simp [memsArr, hm, hkept], by simp [specPU, hm, hp]⟩
            | bool b =>
              simp only [hp, except_bind_ok, except_pure_eq] at h
              cases h
              exact ⟨by simp [memsArr, hm, hkept], by simp [specPU, hm, hp]⟩
            | num n =>
              simp only [hp, except_bind_ok, except_pure_eq] at h
              cases h
              exact ⟨by simp [memsArr, hm, hkept], by simp [specPU, hm, hp]⟩
            | str s =>
              simp only [hp, except_bind_ok, except_pure_eq] at h
              cases h
              exact ⟨by simp [memsArr, hm, hkept], by simp [specPU, hm, hp]⟩
            | obj fs =>
              simp only [hp, except_bind_ok, except_pure_eq] at h
              cases h
              exact ⟨by simp [memsArr, hm, hkept], by simp [specPU, hm, hp]⟩
      | null =>
        simp only [hm] at h
        cases h
        exact ⟨by simp [emptyExtraction, memsArr, hm],
               by simp [emptyExtraction, specPU, hm]⟩
      | bool b =>
        simp only [hm] at h
        cases h
        exact ⟨by simp [emptyExtraction, memsArr, hm],
               by simp [emptyExtraction, specPU, hm]⟩
      | num n =>
        simp only [hm] at h
        cases h
        exact ⟨by simp [emptyExtraction, memsArr, hm],
               by simp [emptyExtraction, specPU, hm]⟩
      | str s =>
        simp only [hm] at h
        cases h
        exact ⟨by simp [emptyExtraction, memsArr, hm],
               by simp [emptyExtraction, specPU, hm]⟩
      | obj fs =>
        simp only [hm] at h
        cases h
        exact ⟨by simp [emptyExtraction, memsArr, hm],
               by simp [emptyExtraction, specPU, hm]⟩

/-- C8 amended: `parseExtraction` is total; a failed parse or a thrown
validation (a `null` entry in one of the scanned lists) yields
`{ memories: [] }`; on a successful validation the kept memories are
exactly the candidates with non-empty string content, an allowed kind and
an array of tags, and the people updates are exactly the entries with a
non-empty name, their edges filtered to those with a closed-enum type, a
non-empty `related_to` and a string (possibly empty) `label`. -/
theorem parseExtraction_amended (parseJson : String → Option JValue)
    (text : String) :
    (parseJson (stripFences text) = none →
      parseExtraction parseJson text = emptyExtraction)
    ∧ (∀ v, parseJson (stripFences text) = some v →
        validateExtraction v = .error () →
        parseExtraction parseJson text = emptyExtraction)
    ∧ (∀ v r, parseJson (stripFences text) = some v →
        validateExtraction v = .ok r →
        parseExtraction parseJson text = r
        ∧ r.memories = (memsArr v).filter validMemB
        ∧ r.people_updates = specPU v) := by
  refine ⟨?_, ?_, ?_⟩
  · intro h; simp [parseExtraction, h]
  · intro v h he; simp [parseExtraction, h, he]
  · intro v r h hok
    exact ⟨by simp [parseExtraction, h, hok], (validateExtraction_ok v r hok).1,
           (validateExtraction_ok v r hok).2⟩

/-- A relationship edge whose `label` is the empty string. -/
def edgeEmptyLabel : JValue :=
  .obj [("related_to", .str "Lizzy"), ("type", .str "sibling"),
        ("label", .str "")]

/-- A parse result carrying the empty-label edge. -/
def valEmptyLabel : JValue :=
  .obj [("memories", .arr []),
        ("people_updates", .arr [.obj [("name", .str "Nathan"),
          ("relationships", .arr [edgeEmptyLabel])]])]

/-- A parse result whose memories list contains a `null` entry next to a
valid candidate. -/
def valNullEntry : JValue :=
  .obj [("memories", .arr [JValue.null,
          .obj [("content", .str "x"), ("type", .str "user_fact"),
                ("tags", .arr [])]])]

/-- The behaviour of `JSON.parse` on the two concrete counterexample
inputs. -/
def parseCex : String → Option JValue :=
  fun s =>
    if s = "A" then some valEmptyLabel
    else if s = "B" then some valNullEntry
    else none

/-- C8 counterexample: (1) a relationship edge with an *empty* `label` is
kept, although the claim says an edge lacking a non-empty label is dropped;
(2) a `null` entry in the memories list makes the whole result collapse to
`{ memories: [] }` — the valid candidate next to it is not kept
individually. -/
theorem parseExtraction_counterexample :
    (parseExtraction parseCex "A").people_updates
      = some [{ name := "Nathan", rename := none, aliases := none,
                bio_snippet := none,
                relationships := some [edgeEmptyLabel] }]
    ∧ parseExtraction parseCex "B" = emptyExtraction :=
  ⟨rfl, rfl⟩

/-- A well-formed parse result with one valid and one invalid candidate. -/
def valMixed : JValue :=
  .obj [("memories", .arr [
    .obj [("content", .str "x"), ("type", .str "user_fact"), ("tags", .arr [])],
    .obj [("content", .str ""), ("type", .str "user_fact"), ("tags", .arr [])]])]

/-- Witness for the amended C8 at a concrete input: the candidate with
empty content is dropped, the valid one kept. -/
theorem parseExtraction_amended_witness :
    parseExtraction (fun _ => some valMixed) "w"
      = { memories := [.obj [("content", .str "x"), ("type", .str "user_fact"),
            ("tags", .arr [])]],
          people_updates := none, core_updates := none }
    ∧ ({ memories := [.obj [("content", .str "x"), ("type", .str "user_fact"),
            ("tags", .arr [])]],
         people_updates := none,
         core_updates := none } : ExtractionResultL).memories
      = (memsArr valMixed).filter validMemB := by
  have h := (parseExtraction_amended (fun _ => some valMixed) "w").2.2 valMixed
    { memories := [.obj [("content", .str "x"), ("type", .str "user_fact"),
        ("tags", .arr [])]],
      people_updates := none, core_updates := none } rfl rfl
  exact ⟨h.1, h.2.1⟩

end LivingDiary
